import Mathlib

/-
Verification development for the openclaw-mission-control event pipeline
(src/server.js, the tail / extract / broadcast / replay core).

Shallow embedding conventions:
- file contents are lists of characters (one char = one byte; the tailed
  files are ASCII JSON-lines), byte offsets are Nat;
- JavaScript objects read from JSON are translated to structures with
  Option fields for properties that may be absent;
- JavaScript truthiness on string-valued fields is modelled explicitly
  (undefined and the empty string are falsy);
- the asynchronous stream reads of the source complete before the next
  poll tick, so each tail call is modelled as one pure function step.
-/

namespace MissionControl

/-! ## File tailing (tailSessionFile, src/server.js:1162-1191; the same
size/offset logic is used by startEventTail, src/server.js:1037-1057) -/

/-- Splits a character list on newline characters, mirroring the
JavaScript String.split call used by the tailers; a trailing newline
yields a final empty segment, exactly as in JavaScript. -/
def splitOnNl : List Char → List (List Char)
  | [] => [[]]
  | c :: cs =>
    match splitOnNl cs with
    | [] => [[]]
    | l :: ls => if c = '\n' then [] :: l :: ls else (c :: l) :: ls

/-- The filter the tailers apply to split segments: JavaScript keeps a
segment when l.trim() is truthy, i.e. when it contains a character that
is not whitespace. -/
def keepLine (l : List Char) : Bool := l.any (fun c => !c.isWhitespace)

/-- One tail call of tailSessionFile (src/server.js:1162-1191) on a file
whose current content is the given character list, starting from the
stored byte offset. Returns the lines handed to the line processor and
the new stored offset. When the current size is at most the stored
offset the code stores the current size and reads nothing; otherwise it
reads the byte range from the offset to the end, splits it on newlines,
drops blank segments, and stores the current size. startEventTail
(src/server.js:1037-1057) applies the same logic to the events file. -/
def tailStep (content : List Char) (prevOffset : Nat) : List (List Char) × Nat :=
  if content.length ≤ prevOffset then ([], content.length)
  else ((splitOnNl (content.drop prevOffset)).filter keepLine, content.length)

/-- C1: the code consumes an unterminated trailing line. On file content
a, newline, b with offset 0, tailSessionFile returns both the complete
line a and the incomplete line b, and advances the stored offset to the
file size 3, past the unterminated byte; when a later append completes
that line to bc, the next call returns only c, so the logical line bc is
delivered mangled as b followed by c. The spec (sections 4.1, 8, 9)
requires the incomplete line to be withheld with the offset stopping
after the last terminator. -/
theorem c1_unterminated_line_consumed :
    tailStep ['a', '\n', 'b'] 0 = ([['a'], ['b']], 3) ∧
    tailStep ['a', '\n', 'b', 'c', '\n'] 3 = ([['c']], 5) := by
  constructor <;> rfl

/-- C2 counterexample: the claim says that when the current size is
strictly below the stored offset the next tail call resets the offset to
0 and resumes reading from the start. On file content a, b, newline
(size 3) with stored offset 5, the call returns no lines and stores
offset 3, while an actual read from the start would return the line ab:
the code neither resets the offset to 0 nor re-reads from the start. -/
theorem c2_counterexample :
    tailStep ['a', 'b', '\n'] 5 = ([], 3) ∧
    tailStep ['a', 'b', '\n'] 0 = ([['a', 'b']], 3) ∧
    ([] : List (List Char)) ≠ [['a', 'b']] := by
  refine ⟨rfl, rfl, by simp⟩

/-- C2 amended: whenever the current file size is strictly less than the
stored offset (truncation), the next tail call returns no lines and sets
the stored offset to the current file size; reading resumes from the new
end of file, and the content now in the file is skipped rather than
re-delivered from offset 0. -/
theorem c2_truncation_clamps (content : List Char) (prevOffset : Nat)
    (h : content.length < prevOffset) :
    tailStep content prevOffset = ([], content.length) := by
  unfold tailStep
  rw [if_pos (Nat.le_of_lt h)]

/-- Witness for c2_truncation_clamps at a concrete input. -/
theorem c2_truncation_clamps_witness :
    tailStep ['x'] 2 = ([], 1) :=
  c2_truncation_clamps ['x'] 2 (by decide)

/-! ## JavaScript truthiness helpers for optional string fields -/

/-- JavaScript truthiness of an optional string: undefined and the empty
string are falsy. -/
def truthyStr : Option String → Bool
  | none => false
  | some s => s ≠ ""

/-- The JavaScript expression a || b for an optional string a and a
string fallback b. -/
def jsOr (a : Option String) (b : String) : String :=
  match a with
  | some s => if s = "" then b else s
  | none => b

/-- The JavaScript expression a || b for two optional strings; b is
returned as-is when a is falsy. -/
def jsOrOpt (a b : Option String) : Option String :=
  if truthyStr a then a else b

/-- The JavaScript expression a || null for an optional string. -/
def jsOrNull (a : Option String) : Option String :=
  if truthyStr a then a else none

/-! ## Session records and event extraction (processSessionLine,
src/server.js:1101-1160) -/

/-- The argument object of a sessions_spawn / sessions_send tool call,
restricted to the properties the extractor reads. -/
structure ToolArgs where
  agentId : Option String := none
  label : Option String := none
  task : Option String := none
  model : Option String := none
  sessionKey : Option String := none
  message : Option String := none
deriving DecidableEq

/-- One entry of msg.content: a tool-call block with its name and
arguments, or any other block shape (ignored by the extractor). -/
inductive ContentBlock where
  | toolCall (name : String) (arguments : Option ToolArgs)
  | otherBlock
deriving DecidableEq

/-- The msg.details object of a tool-result record, restricted to the
properties the extractor reads. -/
structure ResultDetails where
  status : Option String := none
  error : Option String := none
  runId : Option String := none
  childSessionKey : Option String := none
deriving DecidableEq

/-- The obj.message object of a session log record. content is some
when msg.content is an array (the Array.isArray gate). -/
structure SessionMsg where
  role : String
  content : Option (List ContentBlock) := none
  toolName : Option String := none
  details : Option ResultDetails := none
deriving DecidableEq

/-- A parsed session log record. -/
structure SessionObj where
  type : String
  timestamp : Option Nat := none
  message : Option SessionMsg := none
deriving DecidableEq

/-- The event object built by processSessionLine and handed to
broadcastA2AEvent; fields the code leaves unset are none. -/
structure A2AEvent where
  ts : Option Nat := none
  fromAgent : String := ""
  action : String := ""
  event : String := ""
  toAgent : Option String := none
  task : Option String := none
  message : Option String := none
  model : Option String := none
  label : Option String := none
  status : Option String := none
  error : Option String := none
  runId : Option String := none
  childSessionKey : Option String := none
deriving DecidableEq

/-- The spec's canonical event kinds, read off the event string the code
stores (agent.spawn is the spec's spawn_request, agent.send its
send_request, and so on). -/
inductive EventKind where
  | spawnRequest
  | sendRequest
  | spawnOk
  | sendOk
  | errorKind
  | otherKind
deriving DecidableEq

/-- Maps the event string of a built event to the spec's kind. -/
def eventKind (e : A2AEvent) : EventKind :=
  if e.event = "agent.spawn" then EventKind.spawnRequest
  else if e.event = "agent.send" then EventKind.sendRequest
  else if e.event = "agent.spawn_ok" then EventKind.spawnOk
  else if e.event = "agent.send_ok" then EventKind.sendOk
  else if e.event = "agent.error" then EventKind.errorKind
  else EventKind.otherKind

/-- The event built for a sessions_spawn tool call
(src/server.js:1119-1124). The spec's excerpt is the task field,
truncated to 200 characters. -/
def spawnEvent (ts : Option Nat) (agentId : String) (args : ToolArgs) : A2AEvent :=
  { ts := ts, fromAgent := agentId, action := "sessions_spawn",
    event := "agent.spawn",
    toAgent := some (jsOr (jsOrOpt args.agentId args.label) "subagent"),
    task := some ((jsOr args.task "").take 200),
    model := jsOrNull args.model,
    label := jsOrNull args.label }

/-- The event built for a sessions_send tool call
(src/server.js:1125-1129). -/
def sendEvent (ts : Option Nat) (agentId : String) (args : ToolArgs) : A2AEvent :=
  { ts := ts, fromAgent := agentId, action := "sessions_send",
    event := "agent.send",
    toAgent := some (jsOr (jsOrOpt args.sessionKey args.label) "?"),
    message := some ((jsOr args.message "").take 200) }

/-- Events produced by one content block of an assistant message
(src/server.js:1108-1132): only toolCall blocks named sessions_spawn or
sessions_send produce an event. -/
def blockEvents (ts : Option Nat) (agentId : String) : ContentBlock → List A2AEvent
  | ContentBlock.toolCall name args =>
    if name = "sessions_spawn" then [spawnEvent ts agentId (args.getD {})]
    else if name = "sessions_send" then [sendEvent ts agentId (args.getD {})]
    else []
  | ContentBlock.otherBlock => []

/-- Events produced by the tool-result branch
(src/server.js:1136-1159): a record whose msg.role is toolResult for
tool sessions_spawn or sessions_send yields agent.error when
details.status is error or forbidden, otherwise agent.spawn_ok or
agent.send_ok by tool name. -/
def toolResultEvents (ts : Option Nat) (agentId : String) (msg : SessionMsg) : List A2AEvent :=
  if msg.role = "toolResult" ∧
      (msg.toolName = some "sessions_spawn" ∨ msg.toolName = some "sessions_send") then
    let d := msg.details.getD {}
    if d.status = some "error" ∨ d.status = some "forbidden" then
      [{ ts := ts, fromAgent := agentId, action := msg.toolName.getD "",
         status := some (jsOr d.status "unknown"),
         event := "agent.error", error := some (jsOr d.error "unknown error") }]
    else if msg.toolName = some "sessions_spawn" then
      [{ ts := ts, fromAgent := agentId, action := msg.toolName.getD "",
         status := some (jsOr d.status "unknown"),
         event := "agent.spawn_ok", runId := jsOrNull d.runId,
         childSessionKey := jsOrNull d.childSessionKey }]
    else
      [{ ts := ts, fromAgent := agentId, action := msg.toolName.getD "",
         status := some (jsOr d.status "unknown"),
         event := "agent.send_ok", runId := jsOrNull d.runId }]
  else []

/-- processSessionLine (src/server.js:1101-1160): classifies one parsed
session record on behalf of an agent and returns the events it
broadcasts, in broadcast order. -/
def processSessionLine (obj : SessionObj) (agentId : String) : List A2AEvent :=
  if obj.type ≠ "message" then []
  else
    match obj.message with
    | none => []
    | some msg =>
      (if msg.role = "assistant" then
        match msg.content with
        | some blocks => blocks.flatMap (blockEvents obj.timestamp agentId)
        | none => []
      else []) ++ toolResultEvents obj.timestamp agentId msg

/-- The concrete record of claim C6: a message record with timestamp
1000 from role assistant, containing one toolCall block named
sessions_spawn with arguments agentId ops and task build report. -/
def c6Obj : SessionObj :=
  { type := "message", timestamp := some 1000,
    message := some
      { role := "assistant",
        content := some [ContentBlock.toolCall "sessions_spawn"
          (some { agentId := some "ops", task := some "build report" })] } }

/-- The event the extractor builds for c6Obj, written out field by
field. -/
def c6Expected : A2AEvent :=
  { ts := some 1000, fromAgent := "main", action := "sessions_spawn",
    event := "agent.spawn", toAgent := some "ops",
    task := some "build report", model := none, label := none }

set_option maxRecDepth 8000 in
/-- C6: on the record of the claim, processed on behalf of agent main,
the extractor emits exactly one event, with timestamp 1000, fromAgent
main, toAgent ops, kind spawn_request, and excerpt (the task field)
build report. -/
theorem c6_classification :
    processSessionLine c6Obj "main" = [c6Expected] ∧
    c6Expected.ts = some 1000 ∧
    c6Expected.fromAgent = "main" ∧
    c6Expected.toAgent = some "ops" ∧
    eventKind c6Expected = EventKind.spawnRequest ∧
    c6Expected.task = some "build report" := by
  refine ⟨?_, rfl, rfl, rfl, by decide, rfl⟩
  decide

/-- C7: for every record whose message has role toolResult and tool name
sessions_spawn or sessions_send, the extractor emits exactly one event;
when the status field of the result details equals error or forbidden
the event has kind error regardless of which tool produced the result,
and it carries the error text when one is present; otherwise the event
has kind spawn_ok or send_ok respectively. -/
theorem c7_error_precedence (obj : SessionObj) (agentId : String) (msg : SessionMsg)
    (hty : obj.type = "message") (hmsg : obj.message = some msg)
    (hrole : msg.role = "toolResult")
    (htool : msg.toolName = some "sessions_spawn" ∨ msg.toolName = some "sessions_send") :
    ∃ e, processSessionLine obj agentId = [e] ∧
      (((msg.details.getD {}).status = some "error" ∨
        (msg.details.getD {}).status = some "forbidden") →
        (eventKind e = EventKind.errorKind ∧
          ∀ t, (msg.details.getD {}).error = some t → t ≠ "" → e.error = some t)) ∧
      (¬ ((msg.details.getD {}).status = some "error" ∨
          (msg.details.getD {}).status = some "forbidden") →
        eventKind e =
          (if msg.toolName = some "sessions_spawn" then EventKind.spawnOk
           else EventKind.sendOk)) := by
  have hra : msg.role ≠ "assistant" := by rw [hrole]; decide
  have hproc : processSessionLine obj agentId = toolResultEvents obj.timestamp agentId msg := by
    unfold processSessionLine
    rw [hty, hmsg]
    simp [hra]
  rw [hproc]
  unfold toolResultEvents
  rw [if_pos ⟨hrole, htool⟩]
  dsimp only
  by_cases herr : (msg.details.getD {}).status = some "error" ∨
      (msg.details.getD {}).status = some "forbidden"
  · rw [if_pos herr]
    refine ⟨_, rfl, fun _ => ⟨rfl, fun t ht htne => ?_⟩, fun h => absurd herr h⟩
    show some (jsOr (msg.details.getD {}).error "unknown error") = some t
    rw [ht]
    simp only [jsOr]
    rw [if_neg htne]
  · rw [if_neg herr]
    rcases htool with h | h
    · rw [if_pos h]
      exact ⟨_, rfl, fun h2 => absurd h2 herr, fun _ => by rw [if_pos h]; rfl⟩
    · have hsp : msg.toolName ≠ some "sessions_spawn" := by rw [h]; decide
      rw [if_neg hsp]
      exact ⟨_, rfl, fun h2 => absurd h2 herr, fun _ => by rw [if_neg hsp]; rfl⟩

/-- The concrete tool-result message used to witness c7_error_precedence:
a sessions_send result whose status is forbidden. -/
def c7Msg : SessionMsg :=
  { role := "toolResult", toolName := some "sessions_send",
    details := some { status := some "forbidden", error := some "not allowed" } }

/-- The concrete record wrapping c7Msg. -/
def c7Obj : SessionObj :=
  { type := "message", timestamp := some 5, message := some c7Msg }

/-- Witness for c7_error_precedence at the concrete record c7Obj. -/
theorem c7_error_precedence_witness :
    ∃ e, processSessionLine c7Obj "main" = [e] ∧
      (((c7Msg.details.getD {}).status = some "error" ∨
        (c7Msg.details.getD {}).status = some "forbidden") →
        (eventKind e = EventKind.errorKind ∧
          ∀ t, (c7Msg.details.getD {}).error = some t → t ≠ "" → e.error = some t)) ∧
      (¬ ((c7Msg.details.getD {}).status = some "error" ∨
          (c7Msg.details.getD {}).status = some "forbidden") →
        eventKind e =
          (if c7Msg.toolName = some "sessions_spawn" then EventKind.spawnOk
           else EventKind.sendOk)) :=
  c7_error_precedence c7Obj "main" c7Msg rfl rfl rfl (Or.inr rfl)

/-! ## Tail plus line processing (src/server.js:1180-1190): each tailed
line is JSON-parsed inside a try/catch; a parse failure skips the line.
JSON.parse is a library routine, so it is a parameter of the model. -/

/-- The events one tailed line contributes: none when JSON.parse throws
(the catch block swallows the failure), otherwise the events of
processSessionLine on the parsed record. -/
def lineEvents (parseLine : List Char → Option SessionObj) (agentId : String)
    (l : List Char) : List A2AEvent :=
  match parseLine l with
  | some obj => processSessionLine obj agentId
  | none => []

/-- One tail call followed by per-line processing, as the stream end
handler does: the offset is stored (the current file size) and every
line is processed, malformed ones contributing no events. -/
def tailAndProcess (parseLine : List Char → Option SessionObj) (agentId : String)
    (content : List Char) (prevOffset : Nat) : List A2AEvent × Nat :=
  let r := tailStep content prevOffset
  (r.1.flatMap (lineEvents parseLine agentId), r.2)

/-- C9: a tailed line that is not valid JSON is skipped: it contributes
no event, the stored offset still advances to the current file size
(hence past the line), and any later tail call from that offset reads
only bytes appended afterwards, so the malformed line is never
reprocessed. -/
theorem c9_malformed_line (parseLine : List Char → Option SessionObj)
    (agentId : String) (content : List Char) (prevOffset : Nat) (l : List Char)
    (_hl : l ∈ (tailStep content prevOffset).1) (hbad : parseLine l = none) :
    lineEvents parseLine agentId l = [] ∧
    (tailAndProcess parseLine agentId content prevOffset).1 =
      (tailStep content prevOffset).1.flatMap (lineEvents parseLine agentId) ∧
    (tailAndProcess parseLine agentId content prevOffset).2 = content.length ∧
    (∀ suffix, tailStep (content ++ suffix) content.length =
      ((splitOnNl suffix).filter keepLine, content.length + suffix.length)) := by
  refine ⟨?_, rfl, ?_, ?_⟩
  · unfold lineEvents
    rw [hbad]
  · unfold tailAndProcess tailStep
    by_cases h : content.length ≤ prevOffset <;> simp [h]
  · intro suffix
    unfold tailStep
    by_cases hs : suffix = []
    · subst hs
      simp [splitOnNl, keepLine]
    · have hlen : ¬ (content ++ suffix).length ≤ content.length := by
        simp only [List.length_append]
        have : 0 < suffix.length := List.length_pos.mpr hs
        omega
      rw [if_neg hlen]
      simp [List.drop_left]

/-- Witness for c9_malformed_line: a single complete line that no parse
function accepts. -/
theorem c9_malformed_line_witness :
    lineEvents (fun _ => none) "main" ['x'] = [] ∧
    (tailAndProcess (fun _ => none) "main" ['x', '\n'] 0).1 =
      (tailStep ['x', '\n'] 0).1.flatMap (lineEvents (fun _ => none) "main") ∧
    (tailAndProcess (fun _ => none) "main" ['x', '\n'] 0).2 = (['x', '\n'] : List Char).length ∧
    (∀ suffix, tailStep ((['x', '\n'] : List Char) ++ suffix) (['x', '\n'] : List Char).length =
      ((splitOnNl suffix).filter keepLine, (['x', '\n'] : List Char).length + suffix.length)) :=
  c9_malformed_line (fun _ => none) "main" ['x', '\n'] 0 ['x'] (by decide) rfl

/-! ## Broadcast hub and replay persistence (broadcastA2AEvent,
src/server.js:1070-1099) -/

/-- One entry of the persisted agent-comms.json array, as pushed by
broadcastA2AEvent (src/server.js:1084-1092). The JavaScript property
names from and to are keywords here, so they carry an e prefix. -/
structure CommEntry where
  timestamp : Option Nat
  efrom : String
  eto : Option String
  emessage : Option String
  estatus : String
  eevent : String
  details : A2AEvent
deriving DecidableEq

/-- The entry built from a published event. -/
def mkComm (e : A2AEvent) : CommEntry :=
  { timestamp := e.ts, efrom := e.fromAgent, eto := jsOrNull e.toAgent,
    emessage := jsOrOpt e.task (jsOrOpt e.message (jsOrOpt e.error e.status)),
    estatus := jsOr e.status "sent", eevent := e.event, details := e }

/-- The on-disk agent-comms.json file: either a readable JSON array of
entries, or missing / not parsable (both reach the same catch block). -/
inductive CommsFile where
  | ok (entries : List CommEntry)
  | unreadable
deriving DecidableEq

/-- What the try/catch around readFileSync plus JSON.parse yields: the
entries on success, an empty array otherwise (src/server.js:1079-1082). -/
def readComms : CommsFile → List CommEntry
  | CommsFile.ok l => l
  | CommsFile.unreadable => []

/-- comms.push(entry) followed by the capacity check: when the length
exceeds 200 the array is replaced by its last 200 entries
(src/server.js:1084-1094). -/
def pushComm (l : List CommEntry) (c : CommEntry) : List CommEntry :=
  let l2 := l ++ [c]
  if 200 < l2.length then l2.drop (l2.length - 200) else l2

/-- A connected WebSocket client: its identity and whether its
readyState is OPEN. -/
structure Client where
  cid : Nat
  isOpen : Bool
deriving DecidableEq

/-- A message sent to one observer over the push protocol
(src/server.js:1071, 1240, 1249-1253, 1257). -/
inductive WsMsg where
  | agentComms (data : A2AEvent) (backfill : Bool)
  | antfarmEvent (line : List Char) (backfill : Bool)
  | backfillComplete
deriving DecidableEq

/-- One observable step of a publish call: a send to one client, or the
write of the persisted replay array. -/
inductive PubAction where
  | deliver (cid : Nat) (msg : WsMsg)
  | persistFile (entries : List CommEntry)
deriving DecidableEq

/-- True exactly on deliver actions. -/
def isDeliverA : PubAction → Bool
  | PubAction.deliver _ _ => true
  | PubAction.persistFile _ => false

/-- True exactly on persist actions. -/
def isPersistA : PubAction → Bool
  | PubAction.deliver _ _ => false
  | PubAction.persistFile _ => true

/-- The result of one broadcastA2AEvent call: the ordered list of its
observable actions and the new persisted file. -/
structure BroadcastResult where
  trace : List PubAction
  newFile : CommsFile
deriving DecidableEq

/-- broadcastA2AEvent (src/server.js:1070-1099), in source order: first
send the event to every client whose readyState is OPEN (clients that
are not open are skipped, with no queue and no retry), then read the
persisted array (an unreadable file yields an empty array), push the new
entry, trim to the last 200 entries on overflow, and write the array
back. The write is modelled as succeeding; its try/catch swallows
failures. -/
def broadcastA2AEvent (e : A2AEvent) (clients : List Client) (file : CommsFile) :
    BroadcastResult :=
  let delivers := (clients.filter Client.isOpen).map
    (fun c => PubAction.deliver c.cid (WsMsg.agentComms e false))
  let comms := pushComm (readComms file) (mkComm e)
  { trace := delivers ++ [PubAction.persistFile comms], newFile := CommsFile.ok comms }

/-- A concrete event for the C5 counterexample. -/
def c5Event : A2AEvent :=
  { ts := some 1, fromAgent := "main", action := "sessions_spawn",
    event := "agent.spawn", toAgent := some "ops", task := some "t" }

/-- The trace of publishing c5Event to one open client over an empty
replay file. -/
def c5Trace : List PubAction :=
  (broadcastA2AEvent c5Event [{ cid := 0, isOpen := true }] (CommsFile.ok [])).trace

/-- C5 counterexample: the claim orders a publish as append-and-persist
first, delivery second, so in every publish trace each persist action
would precede each deliver action. In the concrete trace c5Trace the
deliver is at index 0 and the persist at index 1, refuting that
ordering: the code sends to clients before touching the replay file. -/
theorem c5_counterexample :
    ¬ (∀ i j a b, c5Trace.get? i = some a → c5Trace.get? j = some b →
        isPersistA a = true → isDeliverA b = true → i < j) := by
  intro h
  have h10 := h 1 0
    (PubAction.persistFile [mkComm c5Event])
    (PubAction.deliver 0 (WsMsg.agentComms c5Event false))
    (by decide) (by decide) (by decide) (by decide)
  omega

/-- C5 amended: a publish call first delivers the event to every
currently-connected client whose channel is open, one send per open
client in client order, skipping clients that are not open with no
queuing or retry; only then does it append the entry to the replay
array, evicting the oldest entries beyond capacity 200, and persist the
result, which also becomes the new file contents. -/
theorem c5_deliver_then_persist (e : A2AEvent) (clients : List Client) (file : CommsFile) :
    (broadcastA2AEvent e clients file).trace =
      (clients.filter Client.isOpen).map
        (fun c => PubAction.deliver c.cid (WsMsg.agentComms e false))
      ++ [PubAction.persistFile (pushComm (readComms file) (mkComm e))] ∧
    (broadcastA2AEvent e clients file).newFile =
      CommsFile.ok (pushComm (readComms file) (mkComm e)) ∧
    ((broadcastA2AEvent e clients file).trace.filter isDeliverA).length =
      (clients.filter Client.isOpen).length := by
  refine ⟨rfl, rfl, ?_⟩
  unfold broadcastA2AEvent
  simp [List.filter_append, isPersistA, isDeliverA, List.filter_map]

/-- C10: when the persisted replay file is missing or not parsable, a
publish still delivers to every open client exactly as usual, and the
persisted replay history is reset to an array holding only the entry of
the newly published event. -/
theorem c10_unreadable_replay (e : A2AEvent) (clients : List Client) :
    (broadcastA2AEvent e clients CommsFile.unreadable).newFile =
      CommsFile.ok [mkComm e] ∧
    (broadcastA2AEvent e clients CommsFile.unreadable).trace =
      (clients.filter Client.isOpen).map
        (fun c => PubAction.deliver c.cid (WsMsg.agentComms e false))
      ++ [PubAction.persistFile [mkComm e]] ∧
    (mkComm e).details = e := by
  have hp : pushComm (readComms CommsFile.unreadable) (mkComm e) = [mkComm e] := by
    unfold pushComm readComms
    simp
  unfold broadcastA2AEvent
  rw [hp]
  exact ⟨rfl, rfl, rfl⟩

/-! ## Sequences of publishes -/

/-- Runs a sequence of publishes in order against the same client set,
threading the persisted file through and concatenating the traces. -/
def runPublishes (clients : List Client) (file : CommsFile) :
    List A2AEvent → CommsFile × List PubAction
  | [] => (file, [])
  | e :: es =>
    let r := broadcastA2AEvent e clients file
    let rest := runPublishes clients r.newFile es
    (rest.1, r.trace ++ rest.2)

/-- Under the capacity invariant, one push is an append followed by a
drop of the overflow from the front. -/
lemma pushComm_eq_drop (l : List CommEntry) (c : CommEntry) (h : l.length ≤ 200) :
    pushComm l c = (l ++ [c]).drop (l.length + 1 - 200) := by
  have hlen : (l ++ [c]).length = l.length + 1 := by
    rw [List.length_append]
    rfl
  show (if 200 < (l ++ [c]).length then (l ++ [c]).drop ((l ++ [c]).length - 200)
      else l ++ [c]) = (l ++ [c]).drop (l.length + 1 - 200)
  by_cases h2 : 200 < (l ++ [c]).length
  · rw [if_pos h2, hlen]
  · rw [if_neg h2]
    have hz : l.length + 1 - 200 = 0 := by
      rw [hlen] at h2
      omega
    rw [hz, List.drop_zero]

/-- A push preserves the capacity invariant. -/
lemma pushComm_length (l : List CommEntry) (c : CommEntry) (h : l.length ≤ 200) :
    (pushComm l c).length ≤ 200 := by
  rw [pushComm_eq_drop l c h]
  simp only [List.length_drop, List.length_append, List.length_singleton]
  omega

set_option maxRecDepth 4000 in
/-- Folding pushes over a list keeps exactly the last 200 entries of the
concatenation, in order. -/
lemma foldl_pushComm_eq (cs : List CommEntry) : ∀ (l : List CommEntry), l.length ≤ 200 →
    cs.foldl pushComm l = (l ++ cs).drop ((l ++ cs).length - 200) := by
  induction cs with
  | nil =>
    intro l h
    have hz : (l ++ ([] : List CommEntry)).length - 200 = 0 := by
      rw [List.append_nil]
      omega
    rw [hz, List.drop_zero, List.append_nil]
    rfl
  | cons c cs ih =>
    intro l h
    rw [List.foldl_cons]
    rw [ih (pushComm l c) (pushComm_length l c h)]
    rw [pushComm_eq_drop l c h]
    have hd : l.length + 1 - 200 ≤ (l ++ [c]).length := by
      rw [List.length_append]
      omega
    rw [← List.drop_append_of_le_length hd, List.drop_drop]
    have hassoc : (l ++ [c]) ++ cs = l ++ c :: cs := by simp
    rw [hassoc]
    congr 1
    simp only [List.length_drop, List.length_append, List.length_singleton,
      List.length_cons]
    omega

/-- The persisted file after a sequence of publishes starting from a
readable array is the fold of pushes over the published entries. -/
lemma runPublishes_file (clients : List Client) (events : List A2AEvent) :
    ∀ (l : List CommEntry),
      (runPublishes clients (CommsFile.ok l) events).1 =
        CommsFile.ok ((events.map mkComm).foldl pushComm l) := by
  induction events with
  | nil => intro l; rfl
  | cons e es ih =>
    intro l
    show (runPublishes clients (CommsFile.ok l) (e :: es)).1 = _
    unfold runPublishes
    dsimp only
    have hb : (broadcastA2AEvent e clients (CommsFile.ok l)).newFile =
        CommsFile.ok (pushComm l (mkComm e)) := rfl
    rw [hb, ih (pushComm l (mkComm e))]
    simp

/-- C4: after any sequence of N publishes starting from an empty replay
file, the persisted array holds exactly the entries of the last
min(N, 200) published events, in original publish order (the drop
evicts the oldest first); in particular its length is min(N, 200) and
never exceeds 200. -/
theorem c4_bounded_replay (events : List A2AEvent) (clients : List Client) :
    readComms (runPublishes clients (CommsFile.ok []) events).1 =
      (events.map mkComm).drop (events.length - 200) ∧
    (readComms (runPublishes clients (CommsFile.ok []) events).1).length =
      min events.length 200 ∧
    (readComms (runPublishes clients (CommsFile.ok []) events).1).length ≤ 200 := by
  have h1 : readComms (runPublishes clients (CommsFile.ok []) events).1 =
      (events.map mkComm).drop (events.length - 200) := by
    rw [runPublishes_file clients events []]
    show (events.map mkComm).foldl pushComm [] = _
    rw [foldl_pushComm_eq (events.map mkComm) [] (by simp)]
    simp
  refine ⟨h1, ?_, ?_⟩
  · rw [h1]
    simp only [List.length_drop, List.length_map]
    omega
  · rw [h1]
    simp only [List.length_drop, List.length_map]
    omega

/-! ## Connection backfill (wss.on connection, src/server.js:1232-1258) -/

/-- JavaScript String.trim on a character list. -/
def trimChars (l : List Char) : List Char :=
  ((l.dropWhile Char.isWhitespace).reverse.dropWhile Char.isWhitespace).reverse

/-- The antfarm part of the connection backfill
(src/server.js:1234-1243): the last 50 parseable lines of the events
file, tagged as backfill; nothing when the file is unreadable, and a
line whose JSON.parse throws (modelled by the parseA predicate) is
skipped. -/
def antfarmBackfill (parseA : List Char → Bool) : Option (List Char) → List WsMsg
  | none => []
  | some content =>
    let ls := (splitOnNl (trimChars content)).filter keepLine
    (ls.drop (ls.length - 50)).filterMap
      (fun l => if parseA l then some (WsMsg.antfarmEvent l true) else none)

/-- The agent-comms part of the connection backfill
(src/server.js:1245-1255): the last 30 entries, each sent as its details
object tagged as backfill; nothing when the file is unreadable. -/
def commsBackfill : CommsFile → List WsMsg
  | CommsFile.ok entries =>
    (entries.drop (entries.length - 30)).map
      (fun c => WsMsg.agentComms c.details true)
  | CommsFile.unreadable => []

/-- The messages sent to a newly connected observer
(src/server.js:1232-1258), in source order: antfarm backfill, then
agent-comms backfill, then one backfill_complete marker. -/
def onConnection (parseA : List Char → Bool) (antfarm : Option (List Char))
    (file : CommsFile) : List WsMsg :=
  antfarmBackfill parseA antfarm ++ commsBackfill file ++ [WsMsg.backfillComplete]

/-- The messages one specific client receives out of a trace. -/
def msgsTo (cid : Nat) (tr : List PubAction) : List WsMsg :=
  tr.filterMap (fun a => match a with
    | PubAction.deliver i m => if i = cid then some m else none
    | PubAction.persistFile _ => none)

/-- True on the messages relevant to agent-comms observation: the
agent_comms messages and the backfill_complete marker, but not the
antfarm_event messages. -/
def commsRelevant : WsMsg → Bool
  | WsMsg.antfarmEvent _ _ => false
  | WsMsg.agentComms _ _ => true
  | WsMsg.backfillComplete => true

/-- Everything one observer receives around a subscription: pre is
published before it connects (it receives none of it live), then the
connection handler runs against the persisted file, then post is
published while it is connected as the sole open client. -/
def subscriberTimeline (parseA : List Char → Bool) (antfarm : Option (List Char))
    (pre post : List A2AEvent) (cid : Nat) : List WsMsg :=
  let fileN := (runPublishes [] (CommsFile.ok []) pre).1
  onConnection parseA antfarm fileN ++
    msgsTo cid (runPublishes [{ cid := cid, isOpen := true }] fileN post).2

/-- The antfarm backfill contributes nothing agent-comms-relevant. -/
lemma commsRelevant_filter_antfarm (parseA : List Char → Bool) (ls : List (List Char)) :
    (ls.filterMap (fun l => if parseA l then some (WsMsg.antfarmEvent l true) else none)).filter
      commsRelevant = [] := by
  induction ls with
  | nil => rfl
  | cons a ls ih =>
    by_cases h : parseA a <;> simp [List.filterMap_cons, h, commsRelevant, ih]

/-- agent_comms messages all pass the relevance filter. -/
lemma commsRelevant_filter_agent (l : List A2AEvent) (b : Bool) :
    (l.map (fun e => WsMsg.agentComms e b)).filter commsRelevant =
      l.map (fun e => WsMsg.agentComms e b) := by
  induction l with
  | nil => rfl
  | cons a l ih => simp [commsRelevant, ih]

/-- Dropping from a mapped entry list and projecting details recovers
the original events: mkComm stores the event itself in details. -/
lemma backfill_map (pre : List A2AEvent) (k : Nat) :
    ((pre.map mkComm).drop k).map (fun c => WsMsg.agentComms c.details true) =
      (pre.drop k).map (fun e => WsMsg.agentComms e true) := by
  rw [← List.map_drop, List.map_map]
  rfl

/-- Publishing to the sole open client delivers exactly the event, live
(not backfill-tagged). -/
lemma msgsTo_broadcast (cid : Nat) (e : A2AEvent) (f : CommsFile) :
    msgsTo cid (broadcastA2AEvent e [{ cid := cid, isOpen := true }] f).trace =
      [WsMsg.agentComms e false] := by
  simp [broadcastA2AEvent, msgsTo, List.filterMap_cons]

/-- A sequence of publishes to the sole open client delivers exactly the
published events, in order. -/
lemma msgsTo_runPublishes (cid : Nat) (post : List A2AEvent) : ∀ (f : CommsFile),
    msgsTo cid (runPublishes [{ cid := cid, isOpen := true }] f post).2 =
      post.map (fun e => WsMsg.agentComms e false) := by
  induction post with
  | nil => intro f; rfl
  | cons e es ih =>
    intro f
    show msgsTo cid ((broadcastA2AEvent e _ f).trace ++
      (runPublishes _ (broadcastA2AEvent e _ f).newFile es).2) = _
    unfold msgsTo
    rw [List.filterMap_append]
    show msgsTo cid (broadcastA2AEvent e _ f).trace ++
      msgsTo cid (runPublishes _ (broadcastA2AEvent e _ f).newFile es).2 = _
    rw [msgsTo_broadcast, ih]
    rfl

/-- The file after the pre-subscription publishes, when they fit within
capacity. -/
lemma preFile_eq (pre : List A2AEvent) (h : pre.length ≤ 200) :
    (runPublishes [] (CommsFile.ok []) pre).1 = CommsFile.ok (pre.map mkComm) := by
  rw [runPublishes_file]
  rw [foldl_pushComm_eq (pre.map mkComm) [] (by simp)]
  simp only [List.nil_append, List.length_map]
  have hz : pre.length - 200 = 0 := by omega
  rw [hz, List.drop_zero]

/-- C3 amended: an observer connecting after N ≤ 200 publishes receives,
among agent-comms-relevant messages, exactly the last min(N, 30)
published events tagged as backfill, in original publish order, then a
single backfill-complete marker, and thereafter exactly the events
published after its subscription, in publish order, with no duplicate
and no gap. (The claim as frozen asserts all N backfilled; the code
backfills only the last 30.) -/
theorem c3_backfill_amended (parseA : List Char → Bool) (antfarm : Option (List Char))
    (pre post : List A2AEvent) (cid : Nat) (h : pre.length ≤ 200) :
    (subscriberTimeline parseA antfarm pre post cid).filter commsRelevant =
      (pre.drop (pre.length - 30)).map (fun e => WsMsg.agentComms e true)
      ++ [WsMsg.backfillComplete]
      ++ post.map (fun e => WsMsg.agentComms e false) := by
  unfold subscriberTimeline
  dsimp only
  rw [preFile_eq pre h]
  unfold onConnection
  rw [List.filter_append, List.filter_append, List.filter_append]
  have h1 : (antfarmBackfill parseA antfarm).filter commsRelevant = [] := by
    cases antfarm with
    | none => rfl
    | some content => exact commsRelevant_filter_antfarm parseA _
  rw [h1]
  have h2 : (commsBackfill (CommsFile.ok (pre.map mkComm))).filter commsRelevant =
      (pre.drop (pre.length - 30)).map (fun e => WsMsg.agentComms e true) := by
    show (((pre.map mkComm).drop ((pre.map mkComm).length - 30)).map
        (fun c => WsMsg.agentComms c.details true)).filter commsRelevant = _
    rw [List.length_map, backfill_map, commsRelevant_filter_agent]
  rw [h2]
  rw [msgsTo_runPublishes, commsRelevant_filter_agent]
  simp [commsRelevant]

/-- Witness for c3_backfill_amended at one pre-publish and one
post-publish. -/
theorem c3_backfill_amended_witness :
    (subscriberTimeline (fun _ => false) none
        [{ ts := some 0, fromAgent := "a", event := "agent.send" }]
        [{ ts := some 1, fromAgent := "a", event := "agent.send" }] 7).filter commsRelevant =
      (([({ ts := some 0, fromAgent := "a", event := "agent.send" } : A2AEvent)].drop
        ([({ ts := some 0, fromAgent := "a", event := "agent.send" } : A2AEvent)].length - 30)).map
          (fun e => WsMsg.agentComms e true))
      ++ [WsMsg.backfillComplete]
      ++ [({ ts := some 1, fromAgent := "a", event := "agent.send" } : A2AEvent)].map
          (fun e => WsMsg.agentComms e false) :=
  c3_backfill_amended (fun _ => false) none
    [{ ts := some 0, fromAgent := "a", event := "agent.send" }]
    [{ ts := some 1, fromAgent := "a", event := "agent.send" }] 7 (by decide)

/-- One concrete published event for the C3 counterexample, numbered by
timestamp. -/
def c3Event (i : Nat) : A2AEvent :=
  { ts := some i, fromAgent := "a", action := "sessions_send",
    event := "agent.send", toAgent := some "b", message := some "m" }

/-- 31 events published before the observer connects. -/
def c3Pre : List A2AEvent := (List.range 31).map c3Event

/-- True exactly on backfill-tagged agent_comms messages. -/
def isBackfillComms : WsMsg → Bool
  | WsMsg.agentComms _ true => true
  | _ => false

set_option maxRecDepth 20000 in
/-- C3 counterexample: after N = 31 ≤ 200 publishes, the claim says a
new subscriber receives exactly 31 backfill-tagged agent-comms events;
the connection handler sends only the last 30 (slice(-30),
src/server.js:1248). -/
theorem c3_counterexample :
    c3Pre.length = 31 ∧ (31 ≤ 200) ∧
    ((subscriberTimeline (fun _ => false) none c3Pre [] 0).filter
        commsRelevant).countP isBackfillComms = 30 ∧
    (30 ≠ 31) := by
  refine ⟨rfl, by omega, ?_, by omega⟩
  rfl

/-! ## Session store polling (pollSessionStores, src/server.js:1193-1230) -/

/-- One value of the per-agent session index: the fields the poller
reads. Absent properties are none. -/
structure SessionMeta where
  updatedAt : Option String := none
  sessionFile : Option String := none
deriving DecidableEq

/-- Association-list lookup, modelling string-keyed JavaScript object
access. -/
def alookup {β : Type} (k : String) : List (String × β) → Option β
  | [] => none
  | p :: rest => if p.1 = k then some p.2 else alookup k rest

/-- Association-list assignment: replaces the value at an existing key,
appends a fresh key at the end, as JavaScript object assignment does. -/
def aset {β : Type} : List (String × β) → String → β → List (String × β)
  | [], k, v => [(k, v)]
  | p :: rest, k, v => if p.1 = k then (k, v) :: rest else p :: aset rest k v

/-- The stored per-agent map sessionKey to updatedAt. An entry can exist
with value none, because the code stores val.updatedAt unconditionally
on the first poll. -/
abbrev UpdStore := List (String × Option String)

/-- The value of lastSessionUpdates[agentId][sessionKey]: undefined both
when the key is absent and when undefined was stored. -/
def getUpd (stored : UpdStore) (k : String) : Option String :=
  match alookup k stored with
  | some v => v
  | none => none

/-- Per-agent poller state: none lastUpdates is the UNSEEN state before
the first successful index read; offsets is sessionFileOffsets. -/
structure PollState where
  lastUpdates : Option UpdStore
  offsets : List (String × Nat)
deriving DecidableEq

/-- The outcome of one poll tick for one agent: the new state and the
tailSessionFile invocations it makes, as (filePath, agentId) pairs. -/
structure PollOut where
  state : PollState
  tailCalls : List (String × String)
deriving DecidableEq

/-- The filesystem as a map from path to current content; a missing path
makes statSync throw. -/
abbrev FileSys := List (String × List Char)

/-- First-poll baselining (src/server.js:1204-1213): for each session
with a truthy sessionFile, stat the file and store its size as the
offset; a stat failure (missing file) leaves the offset map untouched
for that path. -/
def baselineOffsets (fsys : FileSys) (index : List (String × SessionMeta))
    (ofs : List (String × Nat)) : List (String × Nat) :=
  index.foldl (fun acc p =>
    match p.2.sessionFile with
    | some f =>
      if f ≠ "" then
        match alookup f fsys with
        | some content => aset acc f content.length
        | none => acc
      else acc
    | none => acc) ofs

/-- One session entry of a subsequent tick (src/server.js:1217-1227):
when the current updatedAt is truthy and differs strictly from the
stored value, store it and, when the session names a truthy
sessionFile, invoke tailSessionFile on it. -/
def pollStep (agentId : String) (acc : UpdStore × List (String × String))
    (p : String × SessionMeta) : UpdStore × List (String × String) :=
  match p.2.updatedAt with
  | some s =>
    if s ≠ "" ∧ getUpd acc.1 p.1 ≠ some s then
      (aset acc.1 p.1 (some s),
       acc.2 ++ (match p.2.sessionFile with
                 | some f => if f ≠ "" then [(f, agentId)] else []
                 | none => []))
    else acc
  | none => acc

/-- One poll tick of pollSessionStores for one monitored agent whose
index read and JSON.parse succeeded (src/server.js:1193-1230). On the
first successful poll it records every session's updatedAt, baselines
the offsets to end of file and tails nothing; on every later tick it
folds pollStep over the index entries in order. The tailSessionFile
calls are returned as (filePath, agentId) pairs; each such call then
runs tailStep / tailAndProcess with that agentId, which attributes the
resulting lines to the owning agent. -/
def pollAgent (fsys : FileSys) (agentId : String)
    (index : List (String × SessionMeta)) (st : PollState) : PollOut :=
  match st.lastUpdates with
  | none =>
    { state := { lastUpdates := some (index.map (fun p => (p.1, p.2.updatedAt))),
                 offsets := baselineOffsets fsys index st.offsets },
      tailCalls := [] }
  | some stored0 =>
    let r := index.foldl (pollStep agentId) (stored0, [])
    { state := { lastUpdates := some r.1, offsets := st.offsets },
      tailCalls := r.2 }

/-- The claim's change test for one session against the stored map:
its updatedAt strictly differs from the stored value. -/
def sessChanged (stored : UpdStore) (p : String × SessionMeta) : Bool :=
  decide (p.2.updatedAt ≠ getUpd stored p.1)

/-- The tail call one changed session contributes, mirroring the
sessionFile guard of the code. -/
def fileCall (agentId : String) (p : String × SessionMeta) : Option (String × String) :=
  match p.2.sessionFile with
  | some f => if f ≠ "" then some (f, agentId) else none
  | none => none

lemma truthy_some (o : Option String) (h : truthyStr o = true) :
    ∃ s, o = some s ∧ s ≠ "" := by
  cases o with
  | none => exact absurd h (by simp [truthyStr])
  | some s => exact ⟨s, rfl, by simpa [truthyStr] using h⟩

lemma alookup_aset_self {β : Type} (m : List (String × β)) (k : String) (v : β) :
    alookup k (aset m k v) = some v := by
  induction m with
  | nil => simp [aset, alookup]
  | cons p rest ih =>
    by_cases h : p.1 = k
    · simp [aset, h, alookup]
    · simp [aset, h, alookup, ih]

lemma alookup_aset_ne {β : Type} (m : List (String × β)) (k k2 : String) (v : β)
    (hne : k ≠ k2) : alookup k (aset m k2 v) = alookup k m := by
  induction m with
  | nil =>
    show (if k2 = k then some v else alookup k []) = alookup k []
    rw [if_neg (Ne.symm hne)]
  | cons p rest ih =>
    by_cases h : p.1 = k2
    · have hp : p.1 ≠ k := by rw [h]; exact Ne.symm hne
      simp [aset, h, alookup, hp, Ne.symm hne]
    · have hstep : aset (p :: rest) k2 v = p :: aset rest k2 v := by simp [aset, h]
      rw [hstep]
      by_cases h2 : p.1 = k <;> simp [alookup, h2, ih]

lemma getUpd_aset_self (st : UpdStore) (k : String) (v : Option String) :
    getUpd (aset st k v) k = v := by
  unfold getUpd
  rw [alookup_aset_self]

lemma getUpd_aset_ne (st : UpdStore) (k k2 : String) (v : Option String)
    (hne : k ≠ k2) : getUpd (aset st k2 v) k = getUpd st k := by
  unfold getUpd
  rw [alookup_aset_ne st k k2 v hne]

/-- Unfolding one step of the baseline fold. -/
lemma baselineOffsets_cons (fsys : FileSys) (q : String × SessionMeta)
    (rest : List (String × SessionMeta)) (ofs : List (String × Nat)) :
    baselineOffsets fsys (q :: rest) ofs = baselineOffsets fsys rest
      (match q.2.sessionFile with
       | some f =>
         if f ≠ "" then
           match alookup f fsys with
           | some content => aset ofs f content.length
           | none => ofs
         else ofs
       | none => ofs) := rfl

/-- Paths that are no session's backing file keep their offset through
baselining. -/
lemma baseline_frame (fsys : FileSys) (index : List (String × SessionMeta)) :
    ∀ (ofs : List (String × Nat)) (f : String),
      (∀ p ∈ index, p.2.sessionFile ≠ some f) →
      alookup f (baselineOffsets fsys index ofs) = alookup f ofs := by
  induction index with
  | nil => intro ofs f _; rfl
  | cons q rest ih =>
    intro ofs f hf
    rw [baselineOffsets_cons]
    have hrest : ∀ p ∈ rest, p.2.sessionFile ≠ some f :=
      fun p hp => hf p (List.mem_cons_of_mem q hp)
    rw [ih _ f hrest]
    cases hq : q.2.sessionFile with
    | none => rfl
    | some f2 =>
      dsimp only
      have hne : f2 ≠ f := fun he => hf q (List.mem_cons_self q rest) (by rw [hq, he])
      by_cases hemp : f2 ≠ ""
      · rw [if_pos hemp]
        cases hfs : alookup f2 fsys with
        | none => rfl
        | some content => exact alookup_aset_ne ofs f f2 content.length (Ne.symm hne)
      · rw [if_neg hemp]

/-- First-poll baselining stores each backing file's current size as its
offset, when backing files are pairwise distinct and the file exists. -/
lemma baseline_lookup (fsys : FileSys) (index : List (String × SessionMeta)) :
    ∀ (ofs : List (String × Nat)),
      (index.filterMap (fun p => p.2.sessionFile)).Nodup →
      ∀ p ∈ index, ∀ f content, p.2.sessionFile = some f → f ≠ "" →
        alookup f fsys = some content →
        alookup f (baselineOffsets fsys index ofs) = some content.length := by
  induction index with
  | nil => intro ofs _ p hp; exact absurd hp (List.not_mem_nil p)
  | cons q rest ih =>
    intro ofs hnd p hp f content hpf hfne hlook
    rcases List.mem_cons.mp hp with rfl | hpr
    · rw [baselineOffsets_cons, hpf]
      dsimp only
      rw [if_pos hfne, hlook]
      dsimp only
      have hfnotin : ∀ r ∈ rest, r.2.sessionFile ≠ some f := by
        intro r hr he
        have hsplit : (p :: rest).filterMap (fun x => x.2.sessionFile) =
            f :: rest.filterMap (fun x => x.2.sessionFile) :=
          List.filterMap_cons_some hpf
        rw [hsplit] at hnd
        have hf_in : f ∈ rest.filterMap (fun x => x.2.sessionFile) :=
          List.mem_filterMap.mpr ⟨r, hr, he⟩
        exact (List.nodup_cons.mp hnd).1 hf_in
      rw [baseline_frame fsys rest _ f hfnotin]
      exact alookup_aset_self ofs f content.length
    · rw [baselineOffsets_cons]
      have hnd' : (rest.filterMap (fun x => x.2.sessionFile)).Nodup := by
        cases hq : q.2.sessionFile with
        | none =>
          have hsplit : (q :: rest).filterMap (fun x => x.2.sessionFile) =
              rest.filterMap (fun x => x.2.sessionFile) :=
            List.filterMap_cons_none hq
          rwa [hsplit] at hnd
        | some f2 =>
          have hsplit : (q :: rest).filterMap (fun x => x.2.sessionFile) =
              f2 :: rest.filterMap (fun x => x.2.sessionFile) :=
            List.filterMap_cons_some hq
          rw [hsplit] at hnd
          exact (List.nodup_cons.mp hnd).2
      exact ih _ hnd' p hpr f content hpf hfne hlook

/-- The stored map after a subsequent tick: every indexed session's key
maps to its current updatedAt, and all other keys are untouched. -/
lemma pollFold_getUpd (agentId : String) (index : List (String × SessionMeta)) :
    ∀ (stored : UpdStore) (calls0 : List (String × String)),
      (index.map Prod.fst).Nodup →
      (∀ p ∈ index, truthyStr p.2.updatedAt = true) →
      ((∀ p ∈ index,
          getUpd (index.foldl (pollStep agentId) (stored, calls0)).1 p.1 =
            p.2.updatedAt) ∧
       (∀ k, k ∉ index.map Prod.fst →
          getUpd (index.foldl (pollStep agentId) (stored, calls0)).1 k =
            getUpd stored k)) := by
  induction index with
  | nil =>
    intro stored calls0 _ _
    exact ⟨fun p hp => absurd hp (List.not_mem_nil p), fun k _ => rfl⟩
  | cons q rest ih =>
    intro stored calls0 hnd htr
    rw [List.foldl_cons]
    obtain ⟨s, hs, hsne⟩ := truthy_some q.2.updatedAt (htr q (List.mem_cons_self q rest))
    have hstep1 : getUpd (pollStep agentId (stored, calls0) q).1 q.1 = some s := by
      unfold pollStep
      rw [hs]
      dsimp only
      by_cases hc : s ≠ "" ∧ getUpd stored q.1 ≠ some s
      · rw [if_pos hc]
        exact getUpd_aset_self stored q.1 (some s)
      · rw [if_neg hc]
        by_contra hne2
        exact hc ⟨hsne, hne2⟩
    have hstepframe : ∀ k, k ≠ q.1 →
        getUpd (pollStep agentId (stored, calls0) q).1 k = getUpd stored k := by
      intro k hk
      unfold pollStep
      rw [hs]
      dsimp only
      by_cases hc : s ≠ "" ∧ getUpd stored q.1 ≠ some s
      · rw [if_pos hc]
        exact getUpd_aset_ne stored k q.1 (some s) hk
      · rw [if_neg hc]
    have hnd2 : (q.1 :: rest.map Prod.fst).Nodup := by simpa using hnd
    have hq1 : q.1 ∉ rest.map Prod.fst := (List.nodup_cons.mp hnd2).1
    have hnd' : (rest.map Prod.fst).Nodup := (List.nodup_cons.mp hnd2).2
    have htr' : ∀ p ∈ rest, truthyStr p.2.updatedAt = true :=
      fun p hp => htr p (List.mem_cons_of_mem q hp)
    obtain ⟨ihA, ihB⟩ := ih (pollStep agentId (stored, calls0) q).1
      (pollStep agentId (stored, calls0) q).2 hnd' htr'
    constructor
    · intro p hp
      rcases List.mem_cons.mp hp with rfl | hpr
      · rw [hs]
        exact (ihB p.1 hq1).trans hstep1
      · exact ihA p hpr
    · intro k hk
      have hk2 : k ∉ rest.map Prod.fst := fun h => hk (by simp [h])
      have hk1 : k ≠ q.1 := fun h => hk (by simp [h])
      exact (ihB k hk2).trans (hstepframe k hk1)

/-- The tail calls of a subsequent tick are exactly those of the
sessions whose updatedAt strictly differs from the stored value, in
index order, each contributing its backing file paired with the owning
agent. -/
lemma pollFold_calls (agentId : String) (index : List (String × SessionMeta)) :
    ∀ (stored : UpdStore) (calls0 : List (String × String)),
      (index.map Prod.fst).Nodup →
      (∀ p ∈ index, truthyStr p.2.updatedAt = true) →
      (index.foldl (pollStep agentId) (stored, calls0)).2 =
        calls0 ++ (index.filter (sessChanged stored)).filterMap (fileCall agentId) := by
  induction index with
  | nil => intro stored calls0 _ _; simp
  | cons q rest ih =>
    intro stored calls0 hnd htr
    rw [List.foldl_cons]
    obtain ⟨s, hs, hsne⟩ := truthy_some q.2.updatedAt (htr q (List.mem_cons_self q rest))
    have hnd2 : (q.1 :: rest.map Prod.fst).Nodup := by simpa using hnd
    have hq1 : q.1 ∉ rest.map Prod.fst := (List.nodup_cons.mp hnd2).1
    have hnd' : (rest.map Prod.fst).Nodup := (List.nodup_cons.mp hnd2).2
    have htr' : ∀ p ∈ rest, truthyStr p.2.updatedAt = true :=
      fun p hp => htr p (List.mem_cons_of_mem q hp)
    by_cases hc : getUpd stored q.1 = some s
    · have hstep : pollStep agentId (stored, calls0) q = (stored, calls0) := by
        unfold pollStep
        rw [hs]
        dsimp only
        rw [if_neg (fun hconj => hconj.2 hc)]
      rw [hstep, ih stored calls0 hnd' htr']
      have hch : ¬ sessChanged stored q = true := by
        simp only [sessChanged, decide_eq_true_eq, ne_eq, not_not]
        rw [hs, hc]
      rw [List.filter_cons_of_neg hch]
    · have hch : sessChanged stored q = true := by
        simp only [sessChanged, decide_eq_true_eq, ne_eq]
        rw [hs]
        exact fun he => hc he.symm
      have hstep : pollStep agentId (stored, calls0) q =
          (aset stored q.1 (some s),
           calls0 ++ (match q.2.sessionFile with
                      | some f => if f ≠ "" then [(f, agentId)] else []
                      | none => [])) := by
        unfold pollStep
        rw [hs]
        dsimp only
        rw [if_pos ⟨hsne, hc⟩]
      rw [hstep, ih _ _ hnd' htr']
      have hfiltereq : rest.filter (sessChanged (aset stored q.1 (some s))) =
          rest.filter (sessChanged stored) := by
        apply List.filter_congr
        intro p hp
        have hpk : p.1 ≠ q.1 := by
          intro he
          exact hq1 (he ▸ List.mem_map_of_mem Prod.fst hp)
        simp [sessChanged, getUpd_aset_ne stored p.1 q.1 (some s) hpk]
      rw [hfiltereq, List.filter_cons_of_pos hch]
      cases hqf : q.2.sessionFile with
      | none =>
        have hfc : fileCall agentId q = none := by unfold fileCall; rw [hqf]
        rw [List.filterMap_cons_none hfc]
        simp
      | some f =>
        dsimp only
        by_cases hf : f ≠ ""
        · have hfc : fileCall agentId q = some (f, agentId) := by
            unfold fileCall
            rw [hqf]
            dsimp only
            rw [if_pos hf]
          rw [List.filterMap_cons_some hfc, if_pos hf]
          simp
        · have hfc : fileCall agentId q = none := by
            unfold fileCall
            rw [hqf]
            dsimp only
            rw [if_neg hf]
          rw [List.filterMap_cons_none hfc, if_neg hf]
          simp

/-- C8: for one monitored agent with a well-formed session index (every
session has a truthy updatedAt and names a backing file, keys are
unique, as the index input of section 6 of the spec guarantees): the
first successful poll records every session's updatedAt, makes no tail
call, and sets each existing backing file's offset to its current size
(end of file); every subsequent tick tails exactly the sessions whose
updatedAt strictly differs from the stored value, in index order, each
tail call carrying the owning agentId, and updates the stored map
exactly at the indexed keys, which afterwards hold the current
updatedAt values. -/
theorem c8_session_polling (fsys : FileSys) (agentId : String)
    (index : List (String × SessionMeta))
    (hkeys : (index.map Prod.fst).Nodup)
    (hwf : ∀ p ∈ index, truthyStr p.2.updatedAt = true ∧ truthyStr p.2.sessionFile = true) :
    (∀ ofs,
      (pollAgent fsys agentId index { lastUpdates := none, offsets := ofs }).tailCalls = [] ∧
      (pollAgent fsys agentId index
          { lastUpdates := none, offsets := ofs }).state.lastUpdates =
        some (index.map (fun p => (p.1, p.2.updatedAt))) ∧
      ((index.filterMap (fun p => p.2.sessionFile)).Nodup →
        ∀ p ∈ index, ∀ f content, p.2.sessionFile = some f →
          alookup f fsys = some content →
          alookup f (pollAgent fsys agentId index
              { lastUpdates := none, offsets := ofs }).state.offsets =
            some content.length)) ∧
    (∀ stored0 ofs,
      (pollAgent fsys agentId index
          { lastUpdates := some stored0, offsets := ofs }).tailCalls =
        (index.filter (sessChanged stored0)).filterMap (fileCall agentId) ∧
      (∀ p ∈ index,
        getUpd ((pollAgent fsys agentId index
            { lastUpdates := some stored0, offsets := ofs }).state.lastUpdates.getD [])
          p.1 = p.2.updatedAt) ∧
      (∀ k, k ∉ index.map Prod.fst →
        getUpd ((pollAgent fsys agentId index
            { lastUpdates := some stored0, offsets := ofs }).state.lastUpdates.getD [])
          k = getUpd stored0 k)) := by
  constructor
  · intro ofs
    refine ⟨rfl, rfl, ?_⟩
    intro hfnd p hp f content hpf hlook
    have hfne : f ≠ "" := by
      have := (hwf p hp).2
      rw [hpf] at this
      simpa [truthyStr] using this
    exact baseline_lookup fsys index ofs hfnd p hp f content hpf hfne hlook
  · intro stored0 ofs
    have htr : ∀ p ∈ index, truthyStr p.2.updatedAt = true := fun p hp => (hwf p hp).1
    refine ⟨?_, ?_, ?_⟩
    · show (index.foldl (pollStep agentId) (stored0, [])).2 = _
      rw [pollFold_calls agentId index stored0 [] hkeys htr]
      rfl
    · intro p hp
      exact (pollFold_getUpd agentId index stored0 [] hkeys htr).1 p hp
    · intro k hk
      exact (pollFold_getUpd agentId index stored0 [] hkeys htr).2 k hk

/-- A concrete index for the C8 witness: one session s1 with updatedAt
t2 backed by file f1. -/
def c8Index : List (String × SessionMeta) :=
  [("s1", { updatedAt := some "t2", sessionFile := some "f1" })]

/-- A concrete filesystem holding f1 with 3 bytes. -/
def c8Fs : FileSys := [("f1", ['a', 'b', '\n'])]

/-- Witness for c8_session_polling: the concrete agent agentA first
baselines (offset of f1 becomes 3, no tail calls), and on a later tick
against a stored value t1 tails f1, attributed to agentA. -/
theorem c8_session_polling_witness :
    (pollAgent c8Fs "agentA" c8Index { lastUpdates := none, offsets := [] }).tailCalls = [] ∧
    alookup "f1" (pollAgent c8Fs "agentA" c8Index
        { lastUpdates := none, offsets := [] }).state.offsets = some 3 ∧
    (pollAgent c8Fs "agentA" c8Index
        { lastUpdates := some [("s1", some "t1")], offsets := [] }).tailCalls =
      (c8Index.filter (sessChanged [("s1", some "t1")])).filterMap (fileCall "agentA") := by
  have h := c8_session_polling c8Fs "agentA" c8Index (by decide) (by decide)
  refine ⟨(h.1 []).1, ?_, (h.2 [("s1", some "t1")] []).1⟩
  have h3 := (h.1 []).2.2 (by decide) ("s1", { updatedAt := some "t2", sessionFile := some "f1" })
    (by decide) "f1" ['a', 'b', '\n'] rfl rfl
  simpa using h3

end MissionControl
